import Mathlib

/-!
Shallow embedding of `file_copy_tool.py` (an incremental file-copy tool) and
proofs of the specification claims about it.

The embedding follows the Python source function by function:

* `ConfigManager.validate_config`  → `validate_config`
* `DirectoryMatcher.build_file_index` → `build_file_index`
* `DirectoryMatcher.match_files`   → `match_files`
* `IncrementalCopier.copy_files`   → `copy_files`
* `IncrementalCopier.save_logs`    → `save_logs`
* `MainController._execute_copy`   → `execute_copy`

OS and standard-library effects are modelled as explicit data:

* `os.path.isdir`   → an oracle `isdir : String → Bool`;
* `os.walk`         → its enumeration, a `List WalkEntry` of `(root, files)`
  entries in the deterministic top-down depth-first order Python produces
  (the `dirs` component is ignored by the source loop and therefore omitted);
* `os.listdir`      → a `List String` of names in listing order;
* the filesystem    → `FS`, a finite map from paths to file contents;
* `shutil.copy2` failures (permissions, disk full, …) → an error oracle
  `err : Path → Path → Option String` giving the exception message, if any;
* `datetime.now()`  → an explicit `DateTime` value.

Paths are modelled as lists of components; `os.path.join d n` is `d ++ [n]`,
`os.path.basename` takes the last component and `os.path.dirname` drops it.
-/

namespace FileCopyTool

/-- A filesystem path, as its list of components.  `os.path.join dir name`
is `dir ++ [name]`. -/
abbrev Path := List String

/-- `os.path.basename` of a joined path: its last component. -/
def basename (p : Path) : String := p.getLast?.getD ""

/-- `os.path.dirname` of a joined path: all but the last component. -/
def dirname (p : Path) : Path := p.dropLast

/-- `os.path.splitext` restricted to bare file names (no separators): split
at the last dot, except that a dot with only dots before it begins no
extension (so `".hidden"` has no extension), exactly as in CPython's
`genericpath._splitext`. -/
def splitext (name : String) : String × String :=
  let cs := name.data
  match cs.reverse.findIdx? (fun c => c = '.') with
  | none => (name, "")
  | some j =>
    let i := cs.length - 1 - j
    if (cs.take i).all (fun c => c = '.') then (name, "")
    else (String.mk (cs.take i), String.mk (cs.drop i))

/-- Python's `str.endswith`: literal suffix test (always true for the empty
suffix). -/
def endswith (s ending : String) : Bool := List.isSuffixOf ending.data s.data

/-- The three configuration strings handled by `ConfigManager`. -/
structure Config where
  source_dir : String
  target_dir : String
  file_extension : String
deriving DecidableEq, Repr

/-- `ConfigManager.validate_config`: the three checks in source order; Python's
`not config[...]` on a string is the emptiness test. -/
def validate_config (isdir : String → Bool) (config : Config) : Bool × String :=
  if config.source_dir == "" || !isdir config.source_dir then (false, "源目录无效")
  else if config.target_dir == "" || !isdir config.target_dir then (false, "目标目录无效")
  else if config.file_extension == "" then (false, "文件后缀不能为空")
  else (true, "配置有效")

/-- One `(root, files)` entry of the `os.walk` enumeration of the target
tree.  The walk's `dirs` component is ignored by `build_file_index`. -/
abbrev WalkEntry := Path × List String

/-- The `DirectoryMatcher.file_index` dict.  An insertion prepends the pair
and `Index.find` returns the first match, so the most recent insertion for a
key wins, exactly the observable behaviour of Python's dict overwrite. -/
abbrev Index := List (String × Path)

/-- Dict assignment `index[key] = dir`. -/
def Index.insert (index : Index) (key : String) (dir : Path) : Index :=
  (key, dir) :: index

/-- Dict lookup `index[key]` / membership test. -/
def Index.find (index : Index) (key : String) : Option Path :=
  List.lookup key index

/-- `DirectoryMatcher.build_file_index`: for every `(root, files)` walk entry
in order, for every file in it, assign `index[splitext(file)[0]] = root`. -/
def build_file_index (entries : List WalkEntry) : Index :=
  entries.foldl
    (fun index e =>
      e.2.foldl (fun index file => Index.insert index (splitext file).1 e.1) index)
    []

/-- The sequence of `index[base] = root` assignments `build_file_index`
performs, in execution order. -/
def assignmentsOf (entries : List WalkEntry) : List (String × Path) :=
  (entries.map (fun e => e.2.map (fun file => ((splitext file).1, e.1)))).flatten

/-- The assignments whose base name is `b`, in traversal order. -/
def occurrencesOf (entries : List WalkEntry) (b : String) : List (String × Path) :=
  (assignmentsOf entries).filter (fun kv => kv.1 == b)

/-- `DirectoryMatcher.match_files`: walk the source listing in order; keep a
name when it ends with the extension and its base name is in the index,
emitting `(source_dir/name, index[base]/name)`. -/
def match_files (index : Index) (source_dir : Path) (listing : List String)
    (file_extension : String) : List (Path × Path) :=
  listing.filterMap (fun file =>
    if endswith file file_extension then
      match Index.find index (splitext file).1 with
      | some dir => some (source_dir ++ [file], dir ++ [file])
      | none => none
    else none)

/-- The filesystem: a finite map from paths to file contents, as an
association list (most recent write first). -/
structure FS where
  files : List (Path × String)
deriving DecidableEq, Repr

/-- Contents stored at a path, if any. -/
def FS.lookup (fs : FS) (p : Path) : Option String := List.lookup p fs.files

/-- `os.path.exists`. -/
def FS.pathExists (fs : FS) (p : Path) : Bool := (fs.lookup p).isSome

/-- A successful `shutil.copy2` write: `p` now holds contents `c`. -/
def FS.write (fs : FS) (p : Path) (c : String) : FS := ⟨(p, c) :: fs.files⟩

/-- The empty filesystem. -/
def fsEmpty : FS := ⟨[]⟩

/-- One entry of `IncrementalCopier.logs`.  The Python list stores the
rendered string of each entry; `LogEntry.render` below produces exactly
those strings. -/
inductive LogEntry where
  | copied (name : String) (dir : Path)
  | skipped (name : String) (dir : Path)
  | failed (name : String) (dir : Path) (msg : String)
deriving DecidableEq, Repr

/-- Render a path the way the joined strings appear in the log lines. -/
def renderPath (p : Path) : String := String.intercalate "/" p

/-- The exact f-string templates of `copy_files`. -/
def LogEntry.render : LogEntry → String
  | .copied name dir => "复制成功：" ++ name ++ " -> " ++ renderPath dir
  | .skipped name dir => "跳过：" ++ name ++ " 已存在于 " ++ renderPath dir
  | .failed name dir msg =>
      "复制失败：" ++ name ++ " -> " ++ renderPath dir ++ "，错误：" ++ msg

/-- Recognise a Skipped entry. -/
def LogEntry.isSkipped : LogEntry → Bool
  | .skipped _ _ => true
  | _ => false

/-- Recognise a Failed entry. -/
def LogEntry.isFailed : LogEntry → Bool
  | .failed _ _ _ => true
  | _ => false

/-- The state `copy_files` returns: the filesystem after the run, the
`self.logs` list after the run, and the two counters. -/
structure CopyResult where
  fs : FS
  logs : List LogEntry
  copied : Nat
  skipped : Nat
deriving DecidableEq, Repr

/-- `IncrementalCopier.copy_files`: iterate the match pairs in order; an
existing target is skipped, an absent one is copied unless the error oracle
says `shutil.copy2` raised, in which case a Failed entry is recorded and the
loop continues.  `logs` is the `self.logs` list at entry, appended to in
place. -/
def copy_files (err : Path → Path → Option String) :
    List (Path × Path) → FS → List LogEntry → CopyResult
  | [], fs, logs => ⟨fs, logs, 0, 0⟩
  | (source_path, target_path) :: rest, fs, logs =>
    if fs.pathExists target_path then
      let r := copy_files err rest fs
        (logs ++ [LogEntry.skipped (basename source_path) (dirname target_path)])
      ⟨r.fs, r.logs, r.copied, r.skipped + 1⟩
    else
      match err source_path target_path with
      | none =>
        let fs1 := fs.write target_path ((fs.lookup source_path).getD "")
        let r := copy_files err rest fs1
          (logs ++ [LogEntry.copied (basename source_path) (dirname target_path)])
        ⟨r.fs, r.logs, r.copied + 1, r.skipped⟩
      | some msg =>
        let r := copy_files err rest fs
          (logs ++ [LogEntry.failed (basename source_path) (dirname target_path) msg])
        ⟨r.fs, r.logs, r.copied, r.skipped⟩

/-- The error oracle of a run in which no copy attempt raises. -/
def noErr : Path → Path → Option String := fun _ _ => none

/-- A local timestamp, for `datetime.now()`. -/
structure DateTime where
  year : Nat
  month : Nat
  day : Nat
  hour : Nat
  minute : Nat
  second : Nat
deriving DecidableEq, Repr

/-- Zero-pad to two digits, as `strftime` field formats do. -/
def pad2 (n : Nat) : String := if n < 10 then "0" ++ toString n else toString n

/-- Zero-pad to four digits, for `%Y`. -/
def pad4 (n : Nat) : String :=
  if n < 10 then "000" ++ toString n
  else if n < 100 then "00" ++ toString n
  else if n < 1000 then "0" ++ toString n
  else toString n

/-- `datetime.now().strftime('%Y-%m-%d %H:%M:%S')`. -/
def formatTimestamp (d : DateTime) : String :=
  pad4 d.year ++ "-" ++ pad2 d.month ++ "-" ++ pad2 d.day ++ " " ++
    pad2 d.hour ++ ":" ++ pad2 d.minute ++ ":" ++ pad2 d.second

/-- The `'='*50` separator written before each log block. -/
def separator_line : String := String.mk (List.replicate 50 '=')

/-- The log lines of a run, one rendered line per entry, each ending in a
newline, in entry order. -/
def render_block : List LogEntry → String
  | [] => ""
  | e :: rest => LogEntry.render e ++ "\n" ++ render_block rest

/-- `IncrementalCopier.save_logs`: open the log store in append mode and
write the separator line, the timestamp line, then every entry of
`self.logs` on its own line.  `log_store` is the file's previous contents;
the result is its contents afterwards. -/
def save_logs (now : DateTime) (logs : List LogEntry) (log_store : String) : String :=
  let s1 := log_store ++ "\n" ++ separator_line ++ "\n"
  let s2 := s1 ++ "操作时间：" ++ formatTimestamp now ++ "\n"
  logs.foldl (fun acc log => acc ++ LogEntry.render log ++ "\n") s2

/-- `MainController._execute_copy`: validate, and on failure return at once
(no traversal, no copies, stores untouched).  Otherwise build the index,
match, and — unless no pair matched — copy and persist the logs of the run.
The result carries the filesystem, the log store, and the `(copied, skipped)`
counts when a copy phase ran. -/
def execute_copy (isdir : String → Bool) (err : Path → Path → Option String)
    (cfg : Config) (entries : List WalkEntry) (listing : List String)
    (fs : FS) (now : DateTime) (store : String) :
    FS × String × Option (Nat × Nat) :=
  if (validate_config isdir cfg).1 = false then (fs, store, none)
  else
    let index := build_file_index entries
    let pairs := match_files index [cfg.source_dir] listing cfg.file_extension
    if pairs.isEmpty then (fs, store, none)
    else
      let r := copy_files err pairs fs []
      (r.fs, save_logs now r.logs store, some (r.copied, r.skipped))

/-! Concrete data for the witnesses. -/

/-- A walk of a target tree holding `T/x/doc.csv` and `T/y/doc.jpg`. -/
def entriesW : List WalkEntry :=
  [(["T"], []), (["T", "x"], ["doc.csv"]), (["T", "y"], ["doc.jpg"])]

/-- A filesystem already holding the target `T/a.txt`. -/
def fsW : FS := ⟨[(["T", "a.txt"], "old")]⟩

/-- One match pair aimed at the existing target `T/a.txt`. -/
def pairsW : List (Path × Path) := [(["S", "a.txt"], ["T", "a.txt"])]

/-- An error oracle under which every copy attempt raises. -/
def errW : Path → Path → Option String := fun _ _ => some "boom"

/-- An `isdir` oracle accepting every non-empty string. -/
def isdirW : String → Bool := fun s => !(s == "")

/-- An `isdir` oracle accepting nothing. -/
def isdirNoneW : String → Bool := fun _ => false

/-- A configuration whose source directory is empty (invalid). -/
def cfgEmptySourceW : Config := ⟨"", "T", ".txt"⟩

/-- A configuration with every field empty (everything invalid at once). -/
def cfgAllEmptyW : Config := ⟨"", "", ""⟩

/-- A fixed timestamp. -/
def dtW : DateTime := ⟨2024, 1, 1, 0, 0, 0⟩

/-! ## Helper lemmas -/

/-- Writing at `q` leaves every other path's contents alone. -/
theorem FS.lookup_write (fs : FS) (p q : Path) (c : String) :
    (fs.write q c).lookup p = if p = q then some c else fs.lookup p := by
  by_cases h : p = q
  · simp [FS.write, FS.lookup, List.lookup, h]
  · have hb : (p == q) = false := beq_eq_false_iff_ne.mpr h
    simp [FS.write, FS.lookup, List.lookup, hb, h]

/-- The inner loop of `build_file_index` prepends the entry's assignments in
reverse order. -/
theorem foldl_insert_files (root : Path) (files : List String) :
    ∀ init : Index,
      files.foldl (fun index file => Index.insert index (splitext file).1 root) init =
        (files.map (fun file => ((splitext file).1, root))).reverse ++ init := by
  induction files with
  | nil => intro init; simp
  | cons f rest ih =>
    intro init
    rw [List.foldl_cons, ih]
    simp [Index.insert, List.append_assoc]

/-- The outer loop of `build_file_index` accumulates all assignments, most
recent first. -/
theorem build_file_index_foldl (entries : List WalkEntry) :
    ∀ init : Index,
      entries.foldl
          (fun index e =>
            e.2.foldl (fun index file => Index.insert index (splitext file).1 e.1) index)
          init =
        (assignmentsOf entries).reverse ++ init := by
  induction entries with
  | nil => intro init; simp [assignmentsOf]
  | cons e rest ih =>
    intro init
    simp only [List.foldl_cons]
    rw [foldl_insert_files e.1 e.2 init, ih]
    simp [assignmentsOf, List.reverse_append, List.append_assoc]

/-- The index is the reversed assignment sequence. -/
theorem build_file_index_eq (entries : List WalkEntry) :
    build_file_index entries = (assignmentsOf entries).reverse := by
  rw [build_file_index, build_file_index_foldl]
  simp

/-- Association-list lookup is the head of the entries with the sought key. -/
theorem lookup_eq_filter_head (b : String) (l : List (String × Path)) :
    List.lookup b l = ((l.filter fun kv => kv.1 == b).head?).map Prod.snd := by
  induction l with
  | nil => simp
  | cons kv rest ih =>
    obtain ⟨k, v⟩ := kv
    by_cases h : b = k
    · subst h
      simp [List.lookup, List.filter_cons]
    · have h2 : (k == b) = false := by
        simp only [beq_eq_false_iff_ne, ne_eq]
        exact fun e => h e.symm
      have h3 : (b == k) = false := by simp [h]
      simp [List.lookup, List.filter_cons, h2, h3, ih]

/-- Characterisation of `match_files` as filter-then-map over the listing. -/
theorem match_files_spec (index : Index) (source_dir : Path) (listing : List String)
    (ext : String) :
    match_files index source_dir listing ext =
      (listing.filter fun file =>
          endswith file ext && (Index.find index (splitext file).1).isSome).map
        (fun file =>
          (source_dir ++ [file], ((Index.find index (splitext file).1).getD []) ++ [file])) := by
  induction listing with
  | nil => simp [match_files]
  | cons f rest ih =>
    simp only [match_files] at ih ⊢
    rw [List.filterMap_cons, List.filter_cons]
    cases h1 : endswith f ext
    · simp [h1, ih]
    · cases h2 : Index.find index (splitext f).1 with
      | none => simp [h1, h2, ih]
      | some dir => simp [h1, h2, ih]

/-- The empty suffix passes Python's `str.endswith` for every string. -/
theorem endswith_empty (s : String) : endswith s "" = true := by
  simp [endswith, List.isSuffixOf]

/-- The entry log `copy_files` leaves behind does not depend on the
`self.logs` contents at entry: those are kept as a prefix, and the
filesystem and counters are unchanged by them. -/
theorem copy_files_logs_param (err : Path → Path → Option String)
    (pairs : List (Path × Path)) :
    ∀ (fs : FS) (logs : List LogEntry),
      copy_files err pairs fs logs =
        ⟨(copy_files err pairs fs []).fs,
         logs ++ (copy_files err pairs fs []).logs,
         (copy_files err pairs fs []).copied,
         (copy_files err pairs fs []).skipped⟩ := by
  induction pairs with
  | nil => intro fs logs; simp [copy_files]
  | cons hd rest ih =>
    intro fs logs
    obtain ⟨sp, tp⟩ := hd
    cases htp : fs.pathExists tp
    · cases herr : err sp tp with
      | none =>
        simp only [copy_files, htp, herr, Bool.false_eq_true, if_false]
        rw [ih _ (logs ++ [LogEntry.copied (basename sp) (dirname tp)]),
          ih _ ([] ++ [LogEntry.copied (basename sp) (dirname tp)])]
        simp [List.append_assoc]
      | some msg =>
        simp only [copy_files, htp, herr, Bool.false_eq_true, if_false]
        rw [ih _ (logs ++ [LogEntry.failed (basename sp) (dirname tp) msg]),
          ih _ ([] ++ [LogEntry.failed (basename sp) (dirname tp) msg])]
        simp [List.append_assoc]
    · simp only [copy_files, htp, if_true]
      rw [ih _ (logs ++ [LogEntry.skipped (basename sp) (dirname tp)]),
        ih _ ([] ++ [LogEntry.skipped (basename sp) (dirname tp)])]
      simp [List.append_assoc]

/-- One log entry is produced per processed pair. -/
theorem copy_logs_length (err : Path → Path → Option String)
    (pairs : List (Path × Path)) :
    ∀ fs : FS, (copy_files err pairs fs []).logs.length = pairs.length := by
  induction pairs with
  | nil => intro fs; simp [copy_files]
  | cons hd rest ih =>
    intro fs
    obtain ⟨sp, tp⟩ := hd
    cases htp : fs.pathExists tp
    · cases herr : err sp tp with
      | none =>
        simp only [copy_files, htp, herr, Bool.false_eq_true, if_false]
        rw [copy_files_logs_param err rest]
        simp [ih]
      | some msg =>
        simp only [copy_files, htp, herr, Bool.false_eq_true, if_false]
        rw [copy_files_logs_param err rest]
        simp [ih]
    · simp only [copy_files, htp, if_true]
      rw [copy_files_logs_param err rest]
      simp [ih]

/-- Any path that exists keeps existing through a run of `copy_files`. -/
theorem copy_exists_mono (err : Path → Path → Option String)
    (pairs : List (Path × Path)) :
    ∀ (fs : FS) (logs : List LogEntry) (p : Path),
      fs.pathExists p = true → ((copy_files err pairs fs logs).fs).pathExists p = true := by
  induction pairs with
  | nil => intro fs logs p h; simpa [copy_files] using h
  | cons hd rest ih =>
    intro fs logs p h
    obtain ⟨sp, tp⟩ := hd
    cases htp : fs.pathExists tp
    · cases herr : err sp tp with
      | none =>
        simp only [copy_files, htp, herr, Bool.false_eq_true, if_false]
        apply ih
        simp only [FS.pathExists, FS.lookup_write]
        by_cases hpq : p = tp <;> simp [hpq]
        exact h
      | some msg =>
        simp only [copy_files, htp, herr, Bool.false_eq_true, if_false]
        exact ih _ _ _ h
    · simp only [copy_files, htp, if_true]
      exact ih _ _ _ h

/-- Any path that holds some contents keeps exactly those contents through a
run of `copy_files`: the copier writes only at paths that did not exist. -/
theorem copy_lookup_mono (err : Path → Path → Option String)
    (pairs : List (Path × Path)) :
    ∀ (fs : FS) (logs : List LogEntry) (p : Path) (c : String),
      fs.lookup p = some c → ((copy_files err pairs fs logs).fs).lookup p = some c := by
  induction pairs with
  | nil => intro fs logs p c h; simpa [copy_files] using h
  | cons hd rest ih =>
    intro fs logs p c h
    obtain ⟨sp, tp⟩ := hd
    cases htp : fs.pathExists tp
    · cases herr : err sp tp with
      | none =>
        have hne : p ≠ tp := by
          intro e
          rw [e] at h
          simp [FS.pathExists, h] at htp
        simp only [copy_files, htp, herr, Bool.false_eq_true, if_false]
        apply ih
        rw [FS.lookup_write]
        simp [hne, h]
      | some msg =>
        simp only [copy_files, htp, herr, Bool.false_eq_true, if_false]
        exact ih _ _ _ _ h
    · simp only [copy_files, htp, if_true]
      exact ih _ _ _ _ h

/-- After an error-free run, the target of every processed pair exists. -/
theorem copy_targets_exist (pairs : List (Path × Path)) :
    ∀ (fs : FS) (logs : List LogEntry) (pr : Path × Path), pr ∈ pairs →
      ((copy_files noErr pairs fs logs).fs).pathExists pr.2 = true := by
  induction pairs with
  | nil => intro fs logs pr h; cases h
  | cons hd rest ih =>
    intro fs logs pr hmem
    obtain ⟨sp, tp⟩ := hd
    rcases List.mem_cons.mp hmem with heq | htl
    · subst heq
      cases htp : fs.pathExists tp
      · simp only [copy_files, htp, Bool.false_eq_true, if_false, noErr]
        apply copy_exists_mono
        simp [FS.pathExists, FS.lookup_write]
      · simp only [copy_files, htp, if_true]
        exact copy_exists_mono noErr rest fs _ tp htp
    · cases htp : fs.pathExists tp
      · simp only [copy_files, htp, Bool.false_eq_true, if_false, noErr]
        exact ih _ _ _ htl
      · simp only [copy_files, htp, if_true]
        exact ih _ _ _ htl

/-- When every pair's target already exists, `copy_files` changes nothing,
records one Skipped entry per pair, and counts them all as skipped. -/
theorem copy_all_skip (err : Path → Path → Option String)
    (pairs : List (Path × Path)) :
    ∀ (fs : FS) (logs : List LogEntry),
      (pairs.all fun pr => fs.pathExists pr.2) = true →
      copy_files err pairs fs logs =
        ⟨fs,
         logs ++ pairs.map (fun pr => LogEntry.skipped (basename pr.1) (dirname pr.2)),
         0, pairs.length⟩ := by
  induction pairs with
  | nil => intro fs logs _; simp [copy_files]
  | cons hd rest ih =>
    intro fs logs hall
    obtain ⟨sp, tp⟩ := hd
    rw [List.all_cons] at hall
    have h1 : fs.pathExists tp = true := by
      have := Bool.and_elim_left hall
      simpa using this
    have h2 : (rest.all fun pr => fs.pathExists pr.2) = true := Bool.and_elim_right hall
    simp only [copy_files, h1, if_true]
    rw [ih fs _ h2]
    simp [List.append_assoc]

/-- Counter bookkeeping of a run: each pair is accounted exactly once, as
copied, skipped, or a Failed log entry. -/
theorem copy_counts (err : Path → Path → Option String)
    (pairs : List (Path × Path)) :
    ∀ fs : FS,
      (copy_files err pairs fs []).copied + (copy_files err pairs fs []).skipped +
          (copy_files err pairs fs []).logs.countP LogEntry.isFailed =
        pairs.length := by
  induction pairs with
  | nil => intro fs; simp [copy_files]
  | cons hd rest ih =>
    intro fs
    obtain ⟨sp, tp⟩ := hd
    cases htp : fs.pathExists tp
    · cases herr : err sp tp with
      | none =>
        simp only [copy_files, htp, herr, Bool.false_eq_true, if_false]
        rw [copy_files_logs_param err rest]
        have := ih (fs.write tp ((fs.lookup sp).getD ""))
        simp [List.countP_cons, List.countP_append, LogEntry.isFailed]
        omega
      | some msg =>
        simp only [copy_files, htp, herr, Bool.false_eq_true, if_false]
        rw [copy_files_logs_param err rest]
        have := ih fs
        simp [List.countP_cons, List.countP_append, LogEntry.isFailed]
        omega
    · simp only [copy_files, htp, if_true]
      rw [copy_files_logs_param err rest]
      have := ih fs
      simp [List.countP_cons, List.countP_append, LogEntry.isFailed]
      omega

/-- The write loop of `save_logs` appends one rendered line per entry. -/
theorem foldl_render (logs : List LogEntry) :
    ∀ acc : String,
      logs.foldl (fun acc log => acc ++ LogEntry.render log ++ "\n") acc =
        acc ++ render_block logs := by
  induction logs with
  | nil => intro acc; simp [render_block]
  | cons e rest ih =>
    intro acc
    rw [List.foldl_cons, ih, render_block]
    simp [String.append_assoc]

/-! ## Claim theorems -/

/-- Claim C1: idempotence of the copier.  After an interference-free run of
`copy_files` over a match-pair sequence (no copy attempt raises), a second
run over the same sequence copies nothing, skips every pair, and produces
only Skipped log entries. -/
theorem copy_files_idempotent (pairs : List (Path × Path)) (fs : FS)
    (logs : List LogEntry) :
    (copy_files noErr pairs (copy_files noErr pairs fs logs).fs []).copied = 0 ∧
    (copy_files noErr pairs (copy_files noErr pairs fs logs).fs []).skipped = pairs.length ∧
    ((copy_files noErr pairs (copy_files noErr pairs fs logs).fs []).logs.all
      LogEntry.isSkipped) = true := by
  have hall :
      (pairs.all fun pr => ((copy_files noErr pairs fs logs).fs).pathExists pr.2) = true := by
    rw [List.all_eq_true]
    intro pr hpr
    exact copy_targets_exist pairs fs logs pr hpr
  rw [copy_all_skip noErr pairs _ [] hall]
  refine ⟨rfl, rfl, ?_⟩
  rw [List.nil_append, List.all_eq_true]
  intro e he
  obtain ⟨pr, hpr, rfl⟩ := List.mem_map.mp he
  rfl

/-- Claim C2: last-wins collision policy of the target index.  For a base
name assigned more than once during the traversal, the built index holds
the directory of the last occurrence in traversal order; earlier
occurrences are discarded. -/
theorem build_file_index_last_wins (entries : List WalkEntry) (b : String)
    (h : 2 ≤ (occurrencesOf entries b).length) :
    Index.find (build_file_index entries) b =
      ((occurrencesOf entries b).getLast?).map Prod.snd := by
  rw [Index.find, build_file_index_eq entries, lookup_eq_filter_head,
    List.filter_reverse, List.head?_reverse]
  rfl

/-- Witness for C2 on a tree holding `T/x/doc.csv` and `T/y/doc.jpg`: the
base name `doc` occurs twice and the index resolves it to `T/y`, the
directory of the last occurrence. -/
theorem build_file_index_last_wins_witness :
    Index.find (build_file_index entriesW) "doc" = some ["T", "y"] :=
  (build_file_index_last_wins entriesW "doc" (by decide)).trans (by decide)

/-- Claim C3: `match_files` emits exactly the listing entries that end with
the extension and whose base name is in the index, as
`(source_dir/name, index[base]/name)` pairs, in source-listing order;
entries with an absent base name are silently dropped. -/
theorem match_files_characterization (index : Index) (source_dir : Path)
    (listing : List String) (ext : String) :
    match_files index source_dir listing ext =
      (listing.filter fun file =>
          endswith file ext && (Index.find index (splitext file).1).isSome).map
        (fun file =>
          (source_dir ++ [file], ((Index.find index (splitext file).1).getD []) ++ [file])) :=
  match_files_spec index source_dir listing ext

/-- Claim C4: the copier never overwrites.  Every path holding contents
before the run holds the same contents after it, and a pair whose target
exists at processing time is recorded as Skipped, bumps only the skipped
counter, and performs no filesystem change. -/
theorem copy_files_never_overwrites (err : Path → Path → Option String)
    (fs : FS) (logs : List LogEntry) :
    (∀ (pairs : List (Path × Path)) (p : Path) (c : String),
        fs.lookup p = some c → ((copy_files err pairs fs logs).fs).lookup p = some c) ∧
    (∀ (sp tp : Path) (rest : List (Path × Path)),
        fs.pathExists tp = true →
        copy_files err ((sp, tp) :: rest) fs logs =
          let r := copy_files err rest fs
            (logs ++ [LogEntry.skipped (basename sp) (dirname tp)])
          ⟨r.fs, r.logs, r.copied, r.skipped + 1⟩) := by
  constructor
  · intro pairs p c h
    exact copy_lookup_mono err pairs fs logs p c h
  · intro sp tp rest h
    simp [copy_files, h]

/-- Witness for C4: one pair aimed at the already-present `T/a.txt`; its old
contents survive and the run reports one Skipped entry. -/
theorem copy_files_never_overwrites_witness :
    ((copy_files noErr pairsW fsW []).fs).lookup ["T", "a.txt"] = some "old" ∧
    copy_files noErr ((["S", "a.txt"], ["T", "a.txt"]) :: []) fsW [] =
      ⟨fsW, [LogEntry.skipped "a.txt" ["T"]], 0, 1⟩ :=
  ⟨(copy_files_never_overwrites noErr fsW []).1 pairsW ["T", "a.txt"] "old" (by decide),
   ((copy_files_never_overwrites noErr fsW []).2 ["S", "a.txt"] ["T", "a.txt"] []
      (by decide)).trans (by decide)⟩

/-- Claim C5: per-item error recovery.  Every pair is accounted exactly once
(copied + skipped + Failed entries = number of pairs), and a pair whose copy
attempt raises is recorded as a Failed entry carrying the error message,
increments neither counter, and the run continues with the remaining
pairs. -/
theorem copy_files_error_recovery (err : Path → Path → Option String) (fs : FS) :
    (∀ pairs : List (Path × Path),
        (copy_files err pairs fs []).copied + (copy_files err pairs fs []).skipped +
            (copy_files err pairs fs []).logs.countP LogEntry.isFailed =
          pairs.length) ∧
    (∀ (sp tp : Path) (rest : List (Path × Path)) (logs : List LogEntry) (msg : String),
        fs.pathExists tp = false → err sp tp = some msg →
        copy_files err ((sp, tp) :: rest) fs logs =
          let r := copy_files err rest fs
            (logs ++ [LogEntry.failed (basename sp) (dirname tp) msg])
          ⟨r.fs, r.logs, r.copied, r.skipped⟩) := by
  constructor
  · intro pairs
    exact copy_counts err pairs fs
  · intro sp tp rest logs msg h1 h2
    simp [copy_files, h1, h2]

/-- Witness for C5: a copy attempt that raises `boom` on an empty filesystem
yields one Failed entry carrying the message and both counters zero. -/
theorem copy_files_error_recovery_witness :
    copy_files errW ((["S", "a.txt"], ["T", "a.txt"]) :: []) fsEmpty [] =
      ⟨fsEmpty, [LogEntry.failed "a.txt" ["T"] "boom"], 0, 0⟩ :=
  ((copy_files_error_recovery errW fsEmpty).2 ["S", "a.txt"] ["T", "a.txt"] [] [] "boom"
      (by decide) rfl).trans (by decide)

/-- Claim C6: configuration validation.  `validate_config` reports failure
exactly when the source directory is empty or not a directory, the target
directory is empty or not a directory, or the extension is empty; and on
failure the run returns at once with the filesystem and log store untouched
and no copy phase (no partial run). -/
theorem validate_config_failure_iff (isdir : String → Bool)
    (err : Path → Path → Option String) (cfg : Config) (entries : List WalkEntry)
    (listing : List String) (fs : FS) (now : DateTime) (store : String) :
    ((validate_config isdir cfg).1 = false ↔
      (cfg.source_dir = "" ∨ isdir cfg.source_dir = false) ∨
      (cfg.target_dir = "" ∨ isdir cfg.target_dir = false) ∨
      cfg.file_extension = "") ∧
    ((validate_config isdir cfg).1 = false →
      execute_copy isdir err cfg entries listing fs now store = (fs, store, none)) := by
  constructor
  · by_cases h1 : cfg.source_dir = "" <;>
      cases h2 : isdir cfg.source_dir <;>
      by_cases h3 : cfg.target_dir = "" <;>
      cases h4 : isdir cfg.target_dir <;>
      by_cases h5 : cfg.file_extension = "" <;>
      simp [validate_config, h1, h2, h3, h4, h5]
  · intro h
    simp [execute_copy, h]

/-- Witness for C6: an empty source directory makes validation fail and the
whole run return with everything untouched. -/
theorem validate_config_failure_iff_witness :
    execute_copy isdirW noErr cfgEmptySourceW entriesW [] fsEmpty dtW "" =
      (fsEmpty, "", none) :=
  (validate_config_failure_iff isdirW noErr cfgEmptySourceW entriesW [] fsEmpty dtW "").2
    (by decide)

/-- Claim C7: log persistence.  `save_logs` appends to the previous store
contents one block made of a newline, the 50-character separator line, the
timestamp line for the current time, and then exactly one line per entry in
entry order; the previous contents are kept verbatim as a prefix. -/
theorem save_logs_appends_block (now : DateTime) (logs : List LogEntry)
    (store : String) :
    save_logs now logs store =
      store ++ "\n" ++ separator_line ++ "\n" ++ "操作时间：" ++ formatTimestamp now ++
        "\n" ++ render_block logs ∧
    separator_line.length = 50 := by
  constructor
  · simp only [save_logs]
    rw [foldl_render]
  · decide

/-- Claim C8: the `logs` list accumulates across `copy_files` calls on one
copier: a call appends exactly one entry per pair, in pair order, after the
entries already present, which are kept unchanged. -/
theorem copy_files_logs_accumulate (err : Path → Path → Option String)
    (pairs : List (Path × Path)) (fs : FS) (logs : List LogEntry) :
    (copy_files err pairs fs logs).logs = logs ++ (copy_files err pairs fs []).logs ∧
    (copy_files err pairs fs []).logs.length = pairs.length := by
  constructor
  · rw [copy_files_logs_param err pairs fs logs]
  · exact copy_logs_length err pairs fs

/-- Claim C9: `match_files` performs no non-emptiness check on the
extension: the empty extension passes the suffix test for every name, so
the result holds every listing entry whose base name is in the index. -/
theorem match_files_empty_extension (index : Index) (source_dir : Path)
    (listing : List String) :
    (∀ file : String, endswith file "" = true) ∧
    match_files index source_dir listing "" =
      (listing.filter fun file => (Index.find index (splitext file).1).isSome).map
        (fun file =>
          (source_dir ++ [file], ((Index.find index (splitext file).1).getD []) ++ [file])) := by
  refine ⟨fun file => endswith_empty file, ?_⟩
  rw [match_files_spec]
  simp [endswith_empty]

/-- Claim C10: `validate_config` checks source directory, then target
directory, then extension, and reports only the first failing check's
reason; an invalid source directory yields the source failure no matter
what the other fields hold. -/
theorem validate_config_priority (isdir : String → Bool) (cfg : Config) :
    (cfg.source_dir = "" ∨ isdir cfg.source_dir = false →
      validate_config isdir cfg = (false, "源目录无效")) ∧
    (cfg.source_dir ≠ "" → isdir cfg.source_dir = true →
      cfg.target_dir = "" ∨ isdir cfg.target_dir = false →
      validate_config isdir cfg = (false, "目标目录无效")) ∧
    (cfg.source_dir ≠ "" → isdir cfg.source_dir = true →
      cfg.target_dir ≠ "" → isdir cfg.target_dir = true →
      cfg.file_extension = "" →
      validate_config isdir cfg = (false, "文件后缀不能为空")) := by
  refine ⟨?_, ?_, ?_⟩
  · rintro (h | h) <;> simp [validate_config, h]
  · intro h1 h2 h3
    rcases h3 with h3 | h3 <;> simp [validate_config, h1, h2, h3]
  · intro h1 h2 h3 h4 h5
    simp [validate_config, h1, h2, h3, h4, h5]

/-- Witness for C10: with every field empty and an `isdir` oracle rejecting
everything, all three checks fail at once, yet only the source-directory
reason is reported. -/
theorem validate_config_priority_witness :
    validate_config isdirNoneW cfgAllEmptyW = (false, "源目录无效") :=
  (validate_config_priority isdirNoneW cfgAllEmptyW).1 (Or.inl rfl)

end FileCopyTool
